import Mathlib

/-!
Shallow embedding of the Folder Index & Change-Detection subsystem of the
FilesStorage_tg_bot repository.

* `service.py` (`FileManager`): the in-memory multi-key index.  Python dicts
  are embedded as association lists in insertion order, which is exactly the
  iteration order Python guarantees; uncaught Python exceptions are embedded
  as the `Except PyErr` monad.
* `folder_watcher.py`: the polling change detector (`_list_child_folders`,
  `_safe_put`, the diff loop of `run_watcher`).
* `telegram_bot/bot.py` (`process_watchdog_queue`): the single consumer task.

The slug normalizer `FileManager.__normalize_string` delegates to the external
`slugify` library, so the whole embedding is parametrized by an arbitrary
normalizer `norm : String → String`; both indexing and querying use the same
parameter, exactly as the source calls the same private method in both places.
The filesystem is an explicit read-only state `FS` describing the outcomes of
the `os` calls made by the embedded code.
-/

set_option autoImplicit false

namespace FilesStorage

/-- Python exceptions that can escape the functions modelled here:
`FileNotFoundError` from `os.listdir` on a missing directory,
`TypeError` from `os.path.join(None, ...)`, and `KeyError` from a
missing mandatory dict key. -/
inductive PyErr where
  | fileNotFound
  | typeError
  | keyError
deriving DecidableEq, Repr

/-- One value of `FileManager.folders_by_id` (class `FolderData` in
`service.py`). -/
structure FolderData where
  folder_name : String
  slug : String
  folder_id : Nat
deriving DecidableEq, Repr

/-- One element of a secondary-index bucket and also one result item of the
search methods (class `FolderDataByKey` in `service.py`). -/
structure SecEntry where
  folder_name : String
  folder_id : Nat
deriving DecidableEq, Repr

/-- `FileManager.folders_by_id`: a Python dict from int id to `FolderData`,
kept in insertion order. -/
abbrev PrimaryIndex := List (Nat × FolderData)

/-- A secondary index (`folders_by_order` / `folders_by_phone` /
`folders_by_address`): a Python dict from normalized key to a bucket list. -/
abbrev SecIndex := List (String × List SecEntry)

/-- The descriptor-file field map returned by `FileManager.__read_csv`:
a Python dict from header name to cell value (`None` cells appear when a
CSV row is shorter than the header). -/
abbrev InfoDict := List (String × Option String)

/-- The mutable state of a `FileManager` instance. -/
structure FMState where
  folders_by_id : PrimaryIndex
  folders_by_order : SecIndex
  folders_by_phone : SecIndex
  folders_by_address : SecIndex
  total_folders : Nat
deriving DecidableEq, Repr

/-- Python `d.get(k, None)` on an insertion-ordered dict. -/
def dictFind? {α β : Type} [DecidableEq α] (m : List (α × β)) (k : α) : Option β :=
  (m.find? (fun kv => decide (kv.1 = k))).map (fun kv => kv.2)

/-- Python `d[k] = v`: replace in place if the key is present, otherwise
append the new pair at the end (dicts preserve insertion order). -/
def dictSet {α β : Type} [DecidableEq α] (m : List (α × β)) (k : α) (v : β) :
    List (α × β) :=
  if m.any (fun kv => decide (kv.1 = k)) then
    m.map (fun kv => if kv.1 = k then (k, v) else kv)
  else
    m ++ [(k, v)]

/-- Read-only snapshot of every filesystem observation the embedded code can
make.  A storage child folder is identified by its name; `dirs` maps it to
the listing of its immediate children, and a missing key means the folder
does not exist on disk (so `os.listdir` raises `FileNotFoundError`). -/
structure FS where
  /-- `os.listdir(None)` lists the process working directory. -/
  cwd : List String
  /-- children of `STORAGE_DIR/<name>`; `none` key = folder missing. -/
  dirs : List (String × List String)
  /-- `os.listdir(STORAGE_DIR)`. -/
  storage : List String
  /-- `os.path.exists(<folder>/info.csv)`. -/
  hasInfoCsv : String → Bool
  /-- outcome of opening and `csv.DictReader`-parsing `<folder>/info.csv`:
  `.error` models any raised exception, `.ok rows` the parsed rows. -/
  csvRead : String → Except Unit (List InfoDict)

/-- `os.listdir` as called by `service.py`: the argument is `None` (for a
failed path resolution) or the name of a storage child folder standing for
the joined path `STORAGE_DIR/<name>`. -/
def os_listdir (fs : FS) : Option String → Except PyErr (List String)
  | none => .ok fs.cwd
  | some name =>
    match dictFind? fs.dirs name with
    | some files => .ok files
    | none => .error .fileNotFound

/-- `FileManager.__read_csv`: any exception while opening or parsing yields
`None`; otherwise every row's cells are written into one dict, later rows
overwriting earlier ones. -/
def read_csv (contents : Except Unit (List InfoDict)) : Option InfoDict :=
  match contents with
  | .error _ => none
  | .ok rows =>
    some (rows.foldl (fun result row =>
      row.foldl (fun acc kv => dictSet acc kv.1 kv.2) result) [])

/-- `FileManager.__get_full_path_folder_by_id`: resolve an id to the folder
path (represented by the folder name); `None` for an unknown id or a falsy
(empty) stored name. -/
def get_full_path_folder_by_id (fm : FMState) (folder_id : Nat) : Option String :=
  match dictFind? fm.folders_by_id folder_id with
  | none => none
  | some item => if item.folder_name = "" then none else some item.folder_name

/-- `FileManager.get_files_from_folder`.  Note the source calls
`os.listdir(folder_path)` outside any `try`, so a missing folder raises
`FileNotFoundError`; the `try/except TypeError` only protects the
`os.path.join(None, ...)` inside the list comprehension. -/
def get_files_from_folder (fs : FS) (fm : FMState) (folder_id : Nat) :
    Except PyErr (Option (List String)) :=
  let folder_path := get_full_path_folder_by_id fm folder_id
  match os_listdir fs folder_path with
  | .error e => .error e
  | .ok listing =>
    if listing = [] then .ok none
    else
      match folder_path with
      | none => .ok none
      | some p => .ok (some (listing.map (fun file_name => p ++ "/" ++ file_name)))

/-- `FileManager.get_data_from_info_file`.  The `os.listdir(folder_path)`
call and the `os.path.join(folder_path, 'info.csv')` call are both outside
any `try`, so a missing folder raises `FileNotFoundError` and an unknown id
(path `None`, with a non-empty working directory) raises `TypeError`. -/
def get_data_from_info_file (fs : FS) (fm : FMState) (folder_id : Nat) :
    Except PyErr (Option InfoDict) :=
  let folder_path := get_full_path_folder_by_id fm folder_id
  match os_listdir fs folder_path with
  | .error e => .error e
  | .ok listing =>
    if listing = [] then .ok none
    else
      match folder_path with
      | none => .error .typeError
      | some p =>
        if fs.hasInfoCsv p then .ok (read_csv (fs.csvRead p)) else .ok none

/-- `values = d.setdefault(k, []); values.append(x); d[k] = values` — the
bucket-append idiom used by `FileManager.__index_folder_metadata`. -/
def bucketAppend (d : SecIndex) (k : String) (e : SecEntry) : SecIndex :=
  dictSet d k ((dictFind? d k).getD [] ++ [e])

/-- Python truthiness of `info.get(key, None)` for a `str | None` cell:
truthy iff present, non-`None` and non-empty. -/
def truthyCell (c : Option (Option String)) : Option String :=
  match c with
  | some (some s) => if s = "" then none else some s
  | _ => none

/-- The `if order:` branch of `__index_folder_metadata`. -/
def upd_order (norm : String → String) (folder_id : Nat) (folder_name : String)
    (info : InfoDict) (fm : FMState) : FMState :=
  match truthyCell (dictFind? info "Номер договора") with
  | none => fm
  | some o =>
    { fm with folders_by_order :=
        (bucketAppend fm.folders_by_order (norm o) ⟨folder_name, folder_id⟩) }

/-- The `if phone_number:` branch of `__index_folder_metadata`. -/
def upd_phone (norm : String → String) (folder_id : Nat) (folder_name : String)
    (info : InfoDict) (fm : FMState) : FMState :=
  match truthyCell (dictFind? info "Телефон") with
  | none => fm
  | some ph =>
    { fm with folders_by_phone :=
        (bucketAppend fm.folders_by_phone (norm ph) ⟨folder_name, folder_id⟩) }

/-- The `if address:` branch of `__index_folder_metadata`. -/
def upd_address (norm : String → String) (folder_id : Nat) (folder_name : String)
    (info : InfoDict) (fm : FMState) : FMState :=
  match truthyCell (dictFind? info "Адрес") with
  | none => fm
  | some a =>
    { fm with folders_by_address :=
        (bucketAppend fm.folders_by_address (norm a) ⟨folder_name, folder_id⟩) }

/-- `FileManager.__index_folder_metadata`: read the descriptor and append to
the three secondary indexes; `if not info: return` covers both `None` and an
empty parsed dict. -/
def index_folder_metadata (norm : String → String) (fs : FS) (fm : FMState)
    (folder_id : Nat) (folder_name : String) : Except PyErr FMState :=
  match get_data_from_info_file fs fm folder_id with
  | .error e => .error e
  | .ok none => .ok fm
  | .ok (some info) =>
    if info = [] then .ok fm
    else .ok (upd_address norm folder_id folder_name info
               (upd_phone norm folder_id folder_name info
                 (upd_order norm folder_id folder_name info fm)))

/-- `FileManager.add_folder`: unconditionally store a new record under the
key `total_folders`, index its metadata, then increment the counter.  There
is no check whether the name is already present. -/
def add_folder (norm : String → String) (fs : FS) (fm : FMState)
    (folder_name : String) : Except PyErr FMState :=
  let fm1 :=
    { fm with folders_by_id :=
        (dictSet fm.folders_by_id fm.total_folders
          ⟨folder_name, norm folder_name, fm.total_folders⟩) }
  match index_folder_metadata norm fs fm1 fm.total_folders folder_name with
  | .error e => .error e
  | .ok fm2 => .ok { fm2 with total_folders := fm2.total_folders + 1 }

/-- `FileManager.remove_folder`: iterate the dict in insertion order, delete
the entry of the first record whose name matches, return immediately; no-op
when no record matches. -/
def remove_folder (fm : FMState) (folder_name : String) : FMState :=
  match fm.folders_by_id.find? (fun kv => decide (kv.2.folder_name = folder_name)) with
  | none => fm
  | some kv =>
    { fm with folders_by_id :=
        fm.folders_by_id.filter (fun kv2 => decide (¬ kv2.1 = kv.1)) }

/-- Helper for `pyIn`: is the first list a prefix of the second? -/
def listStarts : List Char → List Char → Bool
  | [], _ => true
  | _ :: _, [] => false
  | a :: as, b :: bs => a = b && listStarts as bs

/-- Helper for `pyIn`: does the first list occur contiguously in the second? -/
def listHasRun (sub : List Char) : List Char → Bool
  | [] => sub.isEmpty
  | b :: bs => listStarts sub (b :: bs) || listHasRun sub bs

/-- Python's `sub in s` substring test on strings. -/
def pyIn (sub s : String) : Bool :=
  listHasRun sub.toList s.toList

/-- `FileManager.search_folders_by_partial` (named without the trailing
source word here): normalize the query, scan `folders_by_id.values()` in
order and collect every record whose slug contains the query. -/
def search_folders_fuzzy (norm : String → String) (fm : FMState)
    (query : String) : List SecEntry :=
  let q := norm query
  fm.folders_by_id.foldl
    (fun result_array kv =>
      if pyIn q kv.2.slug then
        result_array ++ [⟨kv.2.folder_name, kv.2.folder_id⟩]
      else result_array) []

/-- `FileManager.search_folders_by_key`: pick the dict for the search type
(an unrecognized type yields an empty dict), then copy the bucket for the
normalized query if it is present and truthy. -/
def search_folders_by_key (norm : String → String) (fm : FMState)
    (query : String) (search_type : String) : List SecEntry :=
  let q := norm query
  let index_data : SecIndex :=
    if search_type = "by_contract" then fm.folders_by_order
    else if search_type = "by_phone" then fm.folders_by_phone
    else if search_type = "by_address" then fm.folders_by_address
    else []
  match dictFind? index_data q with
  | none => []
  | some bucket =>
    if bucket = [] then []
    else bucket.foldl (fun result_array item => result_array ++ [item]) []

/-- The loop body of `FileManager.__build_indexes` over
`enumerate(os.listdir(STORAGE_DIR))`. -/
def build_go (norm : String → String) (fs : FS) :
    FMState → List (Nat × String) → Except PyErr FMState
  | fm, [] => .ok fm
  | fm, (num, folder_name) :: rest =>
    let fm1 :=
      { fm with folders_by_id :=
          (dictSet fm.folders_by_id num ⟨folder_name, norm folder_name, num⟩) }
    match index_folder_metadata norm fs fm1 num folder_name with
    | .error e => .error e
    | .ok fm2 => build_go norm fs fm2 rest

/-- `FileManager.__init__` followed by `__build_indexes`: the counter starts
at `len(os.listdir(STORAGE_DIR))` and ids `0..n-1` are assigned in listing
order. -/
def file_manager_init (norm : String → String) (fs : FS) : Except PyErr FMState :=
  let fm0 : FMState := ⟨[], [], [], [], fs.storage.length⟩
  if fs.storage = [] then .ok fm0
  else build_go norm fs fm0 fs.storage.enum

/-! ## folder_watcher.py -/

/-- One `os.scandir` entry as observed by `_list_child_folders`: its name,
whether `entry.is_dir(follow_symlinks=False)` holds, and whether that check
succeeded at all (`stat_ok = false` models the `OSError` of an entry that
vanished mid-scan). -/
structure DirEntry where
  name : String
  is_dir : Bool
  stat_ok : Bool
deriving DecidableEq, Repr

/-- Outcome of one `os.scandir(path)` call inside `_list_child_folders`. -/
inductive ScanResult where
  | ok (entries : List DirEntry)
  | permissionError
  | fileNotFoundError
deriving DecidableEq, Repr

/-- `_list_child_folders`: a `PermissionError` or `FileNotFoundError` from
`os.scandir` yields the empty set; an `OSError` on a single entry skips just
that entry; non-directories and (unless `include_hidden`) dot-prefixed names
are skipped. -/
def list_child_folders (res : ScanResult) (include_hidden : Bool) : Finset String :=
  match res with
  | .permissionError => ∅
  | .fileNotFoundError => ∅
  | .ok entries =>
    entries.foldl
      (fun names entry =>
        if entry.stat_ok = false then names
        else if entry.is_dir = false then names
        else if include_hidden = false && entry.name.startsWith "." then names
        else insert entry.name names) ∅

/-- A change event payload `{"event": ..., "folder_name": ...}`. -/
structure WEvent where
  event : String
  folder_name : String
deriving DecidableEq, Repr

/-- One iteration of the `while True` loop of `run_watcher`, from the
`current = _list_child_folders(...)` line to `previous = current`: returns
the events handed to `_safe_put` (in emission order) and the next
`previous`. -/
def watcher_tick (previous current : Finset String) : List WEvent × Finset String :=
  let added := current \ previous
  let removed := previous \ current
  (((added.sort (· ≤ ·)).map (fun name => ⟨"new", name⟩)) ++
   ((removed.sort (· ≤ ·)).map (fun name => ⟨"del", name⟩)),
   current)

/-- The loop of `run_watcher` from a given `previous` over the per-tick
listings, collecting every event handed to `_safe_put`. -/
def watcher_loop (previous : Finset String) : List (Finset String) → List WEvent
  | [] => []
  | current :: rest => (watcher_tick previous current).1 ++ watcher_loop current rest

/-- `run_watcher` as a function of the per-tick directory listings: the very
first listing only seeds `previous` (`previous = _list_child_folders(...)`
before the loop) and emits nothing. -/
def run_watcher (listings : List (Finset String)) : List WEvent :=
  match listings with
  | [] => []
  | first :: rest => watcher_loop first rest

/-- `run_watcher` composed with `_list_child_folders` on the raw per-tick
scan outcomes. -/
def run_watcher_scans (include_hidden : Bool) (scans : List ScanResult) : List WEvent :=
  run_watcher (scans.map (fun r => list_child_folders r include_hidden))

/-- A `multiprocessing.Queue` as the watcher sees it: FIFO contents, a
capacity bound, and whether the receiving side has gone away. -/
structure MPQueue where
  items : List WEvent
  capacity : Nat
  closed : Bool
deriving DecidableEq, Repr

/-- The failure modes of `out_queue.put(payload, block=False)`. -/
inductive SendErr where
  | queueFull
  | queueClosed
deriving DecidableEq, Repr

/-- `out_queue.put(payload, block=False)`: error on a closed or full
queue, otherwise append at the back. -/
def queue_put (q : MPQueue) (payload : WEvent) : Except SendErr MPQueue :=
  if q.closed then .error .queueClosed
  else if q.capacity ≤ q.items.length then .error .queueFull
  else .ok { q with items := q.items ++ [payload] }

/-- `_safe_put`: one put attempt; every failure is swallowed, leaving the
queue as it was, and the event is not retried. -/
def safe_put (q : MPQueue) (payload : WEvent) : MPQueue :=
  match queue_put q payload with
  | .ok q2 => q2
  | .error _ => q

/-! ## telegram_bot/bot.py, process_watchdog_queue -/

/-- One payload drained from the queue, as the consumer reads it:
`file_event.get('event', '')` tolerates a missing kind, while
`file_event['folder_name']` would raise `KeyError` when absent. -/
structure QEvent where
  event : Option String
  folder_name : Option String
deriving DecidableEq, Repr

/-- The body of the drain loop of `process_watchdog_queue` for one drained
event: `"new"` dispatches to `FileManager.add_folder`, `"del"` to
`FileManager.remove_folder`, anything else falls to `continue`. -/
def process_watchdog_event (norm : String → String) (fs : FS) (fm : FMState)
    (ev : QEvent) : Except PyErr FMState :=
  if ev.event.getD "" = "new" then
    match ev.folder_name with
    | none => .error .keyError
    | some n => add_folder norm fs fm n
  else if ev.event.getD "" = "del" then
    match ev.folder_name with
    | none => .error .keyError
    | some n => .ok (remove_folder fm n)
  else .ok fm

/-! ## Operation traces over the index -/

/-- An index mutation as dispatched by the consumer task. -/
inductive FMOp where
  | add (name : String)
  | remove (name : String)
deriving DecidableEq, Repr

/-- Run a sequence of index mutations, recording the id assigned by each
`add` (the value of the counter at the moment of the call). -/
def run_queue_ops (norm : String → String) (fs : FS) :
    FMState → List FMOp → Except PyErr (FMState × List Nat)
  | fm, [] => .ok (fm, [])
  | fm, .add name :: ops =>
    match add_folder norm fs fm name with
    | .error e => .error e
    | .ok fm1 =>
      match run_queue_ops norm fs fm1 ops with
      | .error e => .error e
      | .ok (fm2, ids) => .ok (fm2, fm.total_folders :: ids)
  | fm, .remove name :: ops => run_queue_ops norm fs (remove_folder fm name) ops

/-! ## Spec-side definitions (for comparison with the embedded code) -/

/-- Stated from the spec's words for `remove(name)`: delete the first
primary entry whose name equals the argument, keep everything else. -/
def removeFirstByName : PrimaryIndex → String → PrimaryIndex
  | [], _ => []
  | kv :: rest, name =>
    if kv.2.folder_name = name then rest else kv :: removeFirstByName rest name

/-! ## Helper lemmas -/

/-- The keys of the primary index, in insertion order. -/
def keysOf (fm : FMState) : List Nat := fm.folders_by_id.map Prod.fst

theorem dictSet_fresh {α β : Type} [DecidableEq α] (m : List (α × β)) (k : α) (v : β)
    (h : ∀ kv ∈ m, kv.1 ≠ k) : dictSet m k v = m ++ [(k, v)] := by
  unfold dictSet
  rw [if_neg]
  simp only [List.any_eq_true, decide_eq_true_eq, not_exists, not_and]
  intro kv hkv
  exact h kv hkv

theorem upd_order_frame (norm : String → String) (i : Nat) (n : String)
    (info : InfoDict) (fm : FMState) :
    (upd_order norm i n info fm).folders_by_id = fm.folders_by_id ∧
    (upd_order norm i n info fm).total_folders = fm.total_folders := by
  unfold upd_order
  split <;> exact ⟨rfl, rfl⟩

theorem upd_phone_frame (norm : String → String) (i : Nat) (n : String)
    (info : InfoDict) (fm : FMState) :
    (upd_phone norm i n info fm).folders_by_id = fm.folders_by_id ∧
    (upd_phone norm i n info fm).total_folders = fm.total_folders := by
  unfold upd_phone
  split <;> exact ⟨rfl, rfl⟩

theorem upd_address_frame (norm : String → String) (i : Nat) (n : String)
    (info : InfoDict) (fm : FMState) :
    (upd_address norm i n info fm).folders_by_id = fm.folders_by_id ∧
    (upd_address norm i n info fm).total_folders = fm.total_folders := by
  unfold upd_address
  split <;> exact ⟨rfl, rfl⟩

/-- `__index_folder_metadata` never touches the primary index or the
counter. -/
theorem index_folder_metadata_frame (norm : String → String) (fs : FS)
    (fm : FMState) (i : Nat) (n : String) (fm' : FMState)
    (h : index_folder_metadata norm fs fm i n = .ok fm') :
    fm'.folders_by_id = fm.folders_by_id ∧
    fm'.total_folders = fm.total_folders := by
  unfold index_folder_metadata at h
  split at h
  · exact absurd h (by simp)
  · simp only [Except.ok.injEq] at h
    subst h
    exact ⟨rfl, rfl⟩
  · rename_i info _
    split at h <;> simp only [Except.ok.injEq] at h <;> subst h
    · exact ⟨rfl, rfl⟩
    · constructor
      · rw [(upd_address_frame ..).1, (upd_phone_frame ..).1, (upd_order_frame ..).1]
      · rw [(upd_address_frame ..).2, (upd_phone_frame ..).2, (upd_order_frame ..).2]

/-- When `add_folder` returns, it has appended one fresh record keyed by the
old counter value and bumped the counter by one. -/
theorem add_folder_ok_spec (norm : String → String) (fs : FS) (fm : FMState)
    (name : String) (fm' : FMState)
    (hfresh : ∀ kv ∈ fm.folders_by_id, kv.1 ≠ fm.total_folders)
    (h : add_folder norm fs fm name = .ok fm') :
    fm'.folders_by_id =
      fm.folders_by_id ++ [(fm.total_folders, ⟨name, norm name, fm.total_folders⟩)] ∧
    fm'.total_folders = fm.total_folders + 1 := by
  simp only [add_folder] at h
  split at h
  · exact absurd h (by simp)
  · rename_i fm2 hmeta
    simp only [Except.ok.injEq] at h
    subst h
    have hframe := index_folder_metadata_frame _ _ _ _ _ _ hmeta
    constructor
    · show fm2.folders_by_id = _
      rw [hframe.1]
      exact dictSet_fresh _ _ _ hfresh
    · show fm2.total_folders + 1 = _
      rw [hframe.2]

/-- `remove_folder` keeps a sublist of the primary entries and does not
touch the counter. -/
theorem remove_folder_prim (fm : FMState) (name : String) :
    (remove_folder fm name).folders_by_id.Sublist fm.folders_by_id ∧
    (remove_folder fm name).total_folders = fm.total_folders := by
  unfold remove_folder
  split
  · exact ⟨List.Sublist.refl _, rfl⟩
  · exact ⟨List.filter_sublist _, rfl⟩

/-- Invariant of the startup scan loop: processing `enumerate` suffixes
starting at index `i` keeps the keys strictly increasing and strictly below
`i + length`, and never moves the counter. -/
theorem build_go_inv (norm : String → String) (fs : FS) :
    ∀ (l : List String) (i : Nat) (fm fm' : FMState),
    (∀ kv ∈ fm.folders_by_id, kv.1 < i) →
    List.Pairwise (· < ·) (keysOf fm) →
    build_go norm fs fm (List.enumFrom i l) = .ok fm' →
    (∀ kv ∈ fm'.folders_by_id, kv.1 < i + l.length) ∧
    List.Pairwise (· < ·) (keysOf fm') ∧
    fm'.total_folders = fm.total_folders := by
  intro l
  induction l with
  | nil =>
    intro i fm fm' hbound hpair h
    simp only [List.enumFrom, build_go, Except.ok.injEq] at h
    subst h
    exact ⟨fun kv hkv => Nat.lt_of_lt_of_le (hbound kv hkv) (Nat.le_add_right i 0),
      hpair, rfl⟩
  | cons a l ih =>
    intro i fm fm' hbound hpair h
    simp only [List.enumFrom, build_go] at h
    split at h
    · exact absurd h (by simp)
    · rename_i fm2 hmeta
      have hfresh : ∀ kv ∈ fm.folders_by_id, kv.1 ≠ i :=
        fun kv hkv => Nat.ne_of_lt (hbound kv hkv)
      have hset : dictSet fm.folders_by_id i ⟨a, norm a, i⟩ =
          fm.folders_by_id ++ [(i, ⟨a, norm a, i⟩)] :=
        dictSet_fresh _ _ _ hfresh
      have hframe := index_folder_metadata_frame _ _ _ _ _ _ hmeta
      have hfm2 : fm2.folders_by_id = fm.folders_by_id ++ [(i, ⟨a, norm a, i⟩)] := by
        rw [hframe.1, hset]
      have hbound2 : ∀ kv ∈ fm2.folders_by_id, kv.1 < i + 1 := by
        intro kv hkv
        rw [hfm2, List.mem_append] at hkv
        rcases hkv with hkv | hkv
        · exact Nat.lt_succ_of_lt (hbound kv hkv)
        · simp only [List.mem_singleton] at hkv
          subst hkv
          exact Nat.lt_succ_self i
      have hpair2 : List.Pairwise (· < ·) (keysOf fm2) := by
        rw [keysOf, hfm2, List.map_append]
        rw [List.pairwise_append]
        refine ⟨hpair, List.pairwise_singleton _ _, ?_⟩
        intro x hx y hy
        simp only [List.map_cons, List.map_nil, List.mem_singleton] at hy
        subst hy
        simp only [List.mem_map] at hx
        obtain ⟨kv, hkv, rfl⟩ := hx
        exact hbound kv hkv
      obtain ⟨r1, r2, r3⟩ := ih (i + 1) fm2 fm' hbound2 hpair2 h
      refine ⟨fun kv hkv => ?_, r2, by rw [r3, hframe.2]⟩
      have := r1 kv hkv
      simpa [Nat.add_comm, Nat.add_assoc, Nat.add_left_comm] using this

/-- The startup scan assigns ids `0..n-1`, leaves the counter at `n`, and
establishes the primary-index invariant. -/
theorem file_manager_init_inv (norm : String → String) (fs : FS) (s0 : FMState)
    (h : file_manager_init norm fs = .ok s0) :
    (∀ kv ∈ s0.folders_by_id, kv.1 < s0.total_folders) ∧
    List.Pairwise (· < ·) (keysOf s0) ∧
    s0.total_folders = fs.storage.length := by
  unfold file_manager_init at h
  split at h
  · simp only [Except.ok.injEq] at h
    subst h
    exact ⟨by simp, by simp [keysOf], rfl⟩
  · have := build_go_inv norm fs fs.storage 0
      ⟨[], [], [], [], fs.storage.length⟩ s0 (by simp) (by simp [keysOf])
      (by simpa [List.enum] using h)
    obtain ⟨r1, r2, r3⟩ := this
    refine ⟨fun kv hkv => ?_, r2, r3⟩
    have := r1 kv hkv
    rw [r3]
    simpa using this

/-- Invariant of the consumer trace: the assigned ids are the counter
values at each successful `add`, so they are strictly increasing, at least
the starting counter, and the primary keys stay strictly increasing. -/
theorem run_queue_ops_spec (norm : String → String) (fs : FS) :
    ∀ (ops : List FMOp) (fm s : FMState) (ids : List Nat),
    (∀ kv ∈ fm.folders_by_id, kv.1 < fm.total_folders) →
    List.Pairwise (· < ·) (keysOf fm) →
    run_queue_ops norm fs fm ops = .ok (s, ids) →
    (∀ kv ∈ s.folders_by_id, kv.1 < s.total_folders) ∧
    List.Pairwise (· < ·) (keysOf s) ∧
    fm.total_folders ≤ s.total_folders ∧
    List.Pairwise (· < ·) ids ∧
    (∀ j ∈ ids, fm.total_folders ≤ j) ∧
    (∀ (name : String) (ops2 : List FMOp),
      ops = FMOp.add name :: ops2 → ids.head? = some fm.total_folders) := by
  intro ops
  induction ops with
  | nil =>
    intro fm s ids hbound hpair h
    simp only [run_queue_ops, Except.ok.injEq, Prod.mk.injEq] at h
    obtain ⟨rfl, rfl⟩ := h
    exact ⟨hbound, hpair, Nat.le_refl _, List.Pairwise.nil, by simp, by simp⟩
  | cons op ops ih =>
    intro fm s ids hbound hpair h
    cases op with
    | add name =>
      simp only [run_queue_ops] at h
      cases hadd : add_folder norm fs fm name with
      | error e =>
        rw [hadd] at h
        simp at h
      | ok fm1 =>
        rw [hadd] at h
        dsimp only at h
        cases hrec : run_queue_ops norm fs fm1 ops with
        | error e =>
          rw [hrec] at h
          simp at h
        | ok pr =>
          obtain ⟨fm2, ids'⟩ := pr
          rw [hrec] at h
          dsimp only at h
          simp only [Except.ok.injEq, Prod.mk.injEq] at h
          obtain ⟨rfl, rfl⟩ := h
          have hfresh : ∀ kv ∈ fm.folders_by_id, kv.1 ≠ fm.total_folders :=
            fun kv hkv => Nat.ne_of_lt (hbound kv hkv)
          have hspec := add_folder_ok_spec _ _ _ _ _ hfresh hadd
          have htot1 : fm1.total_folders = fm.total_folders + 1 := hspec.2
          have hbound1 : ∀ kv ∈ fm1.folders_by_id, kv.1 < fm1.total_folders := by
            intro kv hkv
            rw [hspec.1, List.mem_append] at hkv
            rw [htot1]
            rcases hkv with hkv | hkv
            · exact Nat.lt_succ_of_lt (hbound kv hkv)
            · simp only [List.mem_singleton] at hkv
              subst hkv
              exact Nat.lt_succ_self _
          have hpair1 : List.Pairwise (· < ·) (keysOf fm1) := by
            rw [keysOf, hspec.1, List.map_append, List.pairwise_append]
            refine ⟨hpair, List.pairwise_singleton _ _, ?_⟩
            intro x hx y hy
            simp only [List.map_cons, List.map_nil, List.mem_singleton] at hy
            subst hy
            simp only [List.mem_map] at hx
            obtain ⟨kv, hkv, rfl⟩ := hx
            exact hbound kv hkv
          obtain ⟨r1, r2, r3, r4, r5, _⟩ := ih fm1 fm2 ids' hbound1 hpair1 hrec
          refine ⟨r1, r2, by omega, ?_, ?_, ?_⟩
          · rw [List.pairwise_cons]
            refine ⟨fun j hj => ?_, r4⟩
            have := r5 j hj
            omega
          · intro j hj
            rcases List.mem_cons.mp hj with rfl | hj
            · exact Nat.le_refl _
            · have := r5 j hj
              omega
          · intro name2 ops2 _
            rfl
    | remove name =>
      simp only [run_queue_ops] at h
      have hprim := remove_folder_prim fm name
      have hbound1 : ∀ kv ∈ (remove_folder fm name).folders_by_id,
          kv.1 < (remove_folder fm name).total_folders := by
        intro kv hkv
        rw [hprim.2]
        exact hbound kv (hprim.1.mem hkv)
      have hpair1 : List.Pairwise (· < ·) (keysOf (remove_folder fm name)) :=
        List.Pairwise.sublist (List.Sublist.map Prod.fst hprim.1) hpair
      obtain ⟨r1, r2, r3, r4, r5, _⟩ :=
        ih (remove_folder fm name) s ids hbound1 hpair1 h
      exact ⟨r1, r2, hprim.2 ▸ r3, r4, fun j hj => hprim.2 ▸ r5 j hj, by simp⟩

/-! ## Concrete sample inputs used by the witnesses and counterexamples -/

/-- Identity normalizer: one admissible instance of the abstract slug
function. -/
def normId : String → String := fun s => s

/-- A small filesystem: storage listing `["A"]`, folders `A` and `D` present
and empty, no descriptor files, empty working directory. -/
def fsW : FS :=
  { cwd := []
    dirs := [("A", []), ("D", [])]
    storage := ["A"]
    hasInfoCsv := fun _ => false
    csvRead := fun _ => .error () }

/-- The index `fsW` produces at startup. -/
def s0W : FMState := ⟨[(0, ⟨"A", "A", 0⟩)], [], [], [], 1⟩

/-- `s0W` after the consumer processes one `add("D")`. -/
def s1W : FMState := ⟨[(0, ⟨"A", "A", 0⟩), (1, ⟨"D", "D", 1⟩)], [], [], [], 2⟩

/-- C6: over any startup scan followed by any trace of add/remove events,
ids are unique, the counter never decreases, every id assigned by an add is
strictly greater than all startup ids and all earlier ids (so removed ids
are never reused), and the first add after a scan of `n` folders gets id
`n`. -/
theorem folder_ids_monotone_never_reused (norm : String → String) (fs : FS)
    (ops : List FMOp) (s0 s1 : FMState) (ids : List Nat)
    (hb : file_manager_init norm fs = .ok s0)
    (hr : run_queue_ops norm fs s0 ops = .ok (s1, ids)) :
    s0.total_folders = fs.storage.length ∧
    List.Pairwise (· < ·) (List.range fs.storage.length ++ ids) ∧
    (keysOf s1).Nodup ∧
    s0.total_folders ≤ s1.total_folders ∧
    (∀ (name : String) (ops2 : List FMOp),
      ops = FMOp.add name :: ops2 → ids.head? = some fs.storage.length) := by
  obtain ⟨b1, b2, b3⟩ := file_manager_init_inv norm fs s0 hb
  obtain ⟨r1, r2, r3, r4, r5, r6⟩ := run_queue_ops_spec norm fs ops s0 s1 ids b1 b2 hr
  refine ⟨b3, ?_, ?_, r3, ?_⟩
  · rw [List.pairwise_append]
    refine ⟨List.pairwise_lt_range _, r4, ?_⟩
    intro x hx j hj
    have hxn := List.mem_range.mp hx
    have hjn := r5 j hj
    omega
  · exact r2.imp Nat.ne_of_lt
  · intro name ops2 hops
    rw [r6 name ops2 hops, b3]

/-- Witness for `folder_ids_monotone_never_reused` at a concrete scan of one
folder followed by one add. -/
theorem folder_ids_monotone_never_reused_witness :
    s0W.total_folders = fsW.storage.length ∧
    List.Pairwise (· < ·) (List.range fsW.storage.length ++ [1]) ∧
    (keysOf s1W).Nodup ∧
    s0W.total_folders ≤ s1W.total_folders ∧
    (∀ (name : String) (ops2 : List FMOp),
      [FMOp.add "D"] = FMOp.add name :: ops2 →
        ([1] : List Nat).head? = some fsW.storage.length) :=
  folder_ids_monotone_never_reused normId fsW [FMOp.add "D"] s0W s1W [1]
    (by rfl) (by rfl)

/-- The empty startup state (empty storage listing). -/
def fm0W : FMState := ⟨[], [], [], [], 0⟩

/-- `fm0W` after one `add("D")`. -/
def fmD1 : FMState := ⟨[(0, ⟨"D", "D", 0⟩)], [], [], [], 1⟩

/-- `fmD1` after a second `add("D")`: two primary entries named `"D"`. -/
def fmD2 : FMState := ⟨[(0, ⟨"D", "D", 0⟩), (1, ⟨"D", "D", 1⟩)], [], [], [], 2⟩

/-- C1 counterexample: `add("D")` twice is not a no-op — it yields two
primary entries named `"D"` and a state different from the one after the
first add. -/
theorem add_folder_not_idempotent_cex :
    add_folder normId fsW fm0W "D" = .ok fmD1 ∧
    add_folder normId fsW fmD1 "D" = .ok fmD2 ∧
    fmD2.folders_by_id.countP (fun kv => decide (kv.2.folder_name = "D")) = 2 ∧
    fmD2 ≠ fmD1 := by
  refine ⟨rfl, rfl, rfl, ?_⟩
  decide

/-- C1 amended: `add(name)` never checks for an existing entry — each
successful call appends one more record with that name under a fresh id, so
two adds of the same name leave two entries and a state distinct from the
state after one add. -/
theorem add_folder_always_appends (norm : String → String) (fs : FS)
    (fm s1 s2 : FMState) (name : String)
    (hbound : ∀ kv ∈ fm.folders_by_id, kv.1 < fm.total_folders)
    (h1 : add_folder norm fs fm name = .ok s1)
    (h2 : add_folder norm fs s1 name = .ok s2) :
    s1.folders_by_id.countP (fun kv => decide (kv.2.folder_name = name)) =
      fm.folders_by_id.countP (fun kv => decide (kv.2.folder_name = name)) + 1 ∧
    s2.folders_by_id.countP (fun kv => decide (kv.2.folder_name = name)) =
      fm.folders_by_id.countP (fun kv => decide (kv.2.folder_name = name)) + 2 ∧
    s2 ≠ s1 := by
  have hfresh1 : ∀ kv ∈ fm.folders_by_id, kv.1 ≠ fm.total_folders :=
    fun kv hkv => Nat.ne_of_lt (hbound kv hkv)
  have hs1 := add_folder_ok_spec _ _ _ _ _ hfresh1 h1
  have hbound1 : ∀ kv ∈ s1.folders_by_id, kv.1 < s1.total_folders := by
    intro kv hkv
    rw [hs1.1, List.mem_append] at hkv
    rw [hs1.2]
    rcases hkv with hkv | hkv
    · exact Nat.lt_succ_of_lt (hbound kv hkv)
    · simp only [List.mem_singleton] at hkv
      subst hkv
      exact Nat.lt_succ_self _
  have hfresh2 : ∀ kv ∈ s1.folders_by_id, kv.1 ≠ s1.total_folders :=
    fun kv hkv => Nat.ne_of_lt (hbound1 kv hkv)
  have hs2 := add_folder_ok_spec _ _ _ _ _ hfresh2 h2
  have hc1 : s1.folders_by_id.countP (fun kv => decide (kv.2.folder_name = name)) =
      fm.folders_by_id.countP (fun kv => decide (kv.2.folder_name = name)) + 1 := by
    rw [hs1.1, List.countP_append]
    simp
  refine ⟨hc1, ?_, ?_⟩
  · rw [hs2.1, List.countP_append, hc1]
    simp
  · intro he
    have : s2.total_folders = s1.total_folders := congrArg FMState.total_folders he
    rw [hs2.2, hs1.2] at this
    omega

/-- Witness for `add_folder_always_appends` on the concrete double add. -/
theorem add_folder_always_appends_witness :
    fmD1.folders_by_id.countP (fun kv => decide (kv.2.folder_name = "D")) =
      fm0W.folders_by_id.countP (fun kv => decide (kv.2.folder_name = "D")) + 1 ∧
    fmD2.folders_by_id.countP (fun kv => decide (kv.2.folder_name = "D")) =
      fm0W.folders_by_id.countP (fun kv => decide (kv.2.folder_name = "D")) + 2 ∧
    fmD2 ≠ fmD1 :=
  add_folder_always_appends normId fsW fm0W fmD1 fmD2 "D"
    (by intro kv hkv; simp [fm0W] at hkv) rfl rfl

/-- C10: an event whose kind is neither `"new"` nor `"del"` (a missing kind
reads as `""`) leaves the index untouched and the consumer just continues. -/
theorem consumer_ignores_unknown_events (norm : String → String) (fs : FS)
    (fm : FMState) (ev : QEvent)
    (h1 : ev.event.getD "" ≠ "new") (h2 : ev.event.getD "" ≠ "del") :
    process_watchdog_event norm fs fm ev = .ok fm := by
  unfold process_watchdog_event
  rw [if_neg h1, if_neg h2]

/-- Witness for `consumer_ignores_unknown_events`: a `"renamed"` event and
an event with no kind field. -/
theorem consumer_ignores_unknown_events_witness :
    process_watchdog_event normId fsW s0W ⟨some "renamed", some "Z"⟩ = .ok s0W ∧
    process_watchdog_event normId fsW s0W ⟨none, none⟩ = .ok s0W :=
  ⟨consumer_ignores_unknown_events normId fsW s0W ⟨some "renamed", some "Z"⟩
      (by decide) (by decide),
   consumer_ignores_unknown_events normId fsW s0W ⟨none, none⟩
      (by decide) (by decide)⟩

/-- The dict-deletion performed by `remove_folder` coincides with deleting
the first name match when the keys are distinct. -/
theorem removeFirst_eq_aux (name : String) :
    ∀ (l : PrimaryIndex), (l.map Prod.fst).Nodup →
    (match l.find? (fun kv => decide (kv.2.folder_name = name)) with
     | none => l
     | some kv => l.filter (fun kv2 => decide (¬ kv2.1 = kv.1))) =
    removeFirstByName l name := by
  intro l
  induction l with
  | nil => intro _; rfl
  | cons a l ih =>
    intro hnd
    rw [List.map_cons, List.nodup_cons] at hnd
    by_cases ha : a.2.folder_name = name
    · rw [List.find?_cons_of_pos _ (by simp [ha])]
      simp only [removeFirstByName, if_pos ha]
      rw [List.filter_cons_of_neg (by simp)]
      apply List.filter_eq_self.mpr
      intro kv hkv
      simp only [decide_eq_true_eq]
      intro heq
      exact hnd.1 (heq ▸ List.mem_map_of_mem Prod.fst hkv)
    · rw [List.find?_cons_of_neg _ (by simp [ha])]
      simp only [removeFirstByName, if_neg ha]
      have hrec := ih hnd.2
      cases hf : l.find? (fun kv => decide (kv.2.folder_name = name)) with
      | none =>
        rw [hf] at hrec
        dsimp only at hrec ⊢
        rw [← hrec]
      | some kv =>
        rw [hf] at hrec
        dsimp only at hrec ⊢
        have hmem : kv ∈ l := List.mem_of_find?_eq_some hf
        have hane : ¬ a.1 = kv.1 := by
          intro heq
          exact hnd.1 (heq ▸ List.mem_map_of_mem Prod.fst hmem)
        rw [List.filter_cons_of_pos (by simpa using hane)]
        rw [hrec]

/-- C8: `remove(name)` deletes exactly the first matching primary entry, is
a no-op when no entry matches, and leaves all three secondary indexes (and
the counter) untouched. -/
theorem remove_folder_spec (fm : FMState) (name : String)
    (hnd : (keysOf fm).Nodup) :
    (remove_folder fm name).folders_by_id = removeFirstByName fm.folders_by_id name ∧
    ((∀ kv ∈ fm.folders_by_id, kv.2.folder_name ≠ name) → remove_folder fm name = fm) ∧
    (remove_folder fm name).folders_by_order = fm.folders_by_order ∧
    (remove_folder fm name).folders_by_phone = fm.folders_by_phone ∧
    (remove_folder fm name).folders_by_address = fm.folders_by_address := by
  refine ⟨?_, ?_, ?_, ?_, ?_⟩
  · unfold remove_folder
    have haux := removeFirst_eq_aux name fm.folders_by_id hnd
    cases hfind : fm.folders_by_id.find? (fun kv => decide (kv.2.folder_name = name)) with
    | none =>
      rw [hfind] at haux
      dsimp only at haux ⊢
      exact haux
    | some kv =>
      rw [hfind] at haux
      dsimp only at haux ⊢
      exact haux
  · intro hnone
    unfold remove_folder
    rw [List.find?_eq_none.mpr]
    intro kv hkv
    simpa using hnone kv hkv
  · unfold remove_folder
    split <;> rfl
  · unfold remove_folder
    split <;> rfl
  · unfold remove_folder
    split <;> rfl

/-- Witness for `remove_folder_spec` on the concrete two-entry index. -/
theorem remove_folder_spec_witness :
    (remove_folder s1W "D").folders_by_id = removeFirstByName s1W.folders_by_id "D" ∧
    ((∀ kv ∈ s1W.folders_by_id, kv.2.folder_name ≠ "D") → remove_folder s1W "D" = s1W) ∧
    (remove_folder s1W "D").folders_by_order = s1W.folders_by_order ∧
    (remove_folder s1W "D").folders_by_phone = s1W.folders_by_phone ∧
    (remove_folder s1W "D").folders_by_address = s1W.folders_by_address :=
  remove_folder_spec s1W "D" (by decide)

/-- The copy loop `for i in range(len(bucket)): result.append(bucket[i])`
reproduces the bucket. -/
theorem foldl_append_copy (b : List SecEntry) :
    ∀ acc : List SecEntry, b.foldl (fun r i => r ++ [i]) acc = acc ++ b := by
  induction b with
  | nil => intro acc; simp
  | cons x xs ih =>
    intro acc
    rw [List.foldl_cons, ih]
    simp

/-- A state with populated secondary buckets, used as witness input. -/
def fmKey : FMState :=
  ⟨[], [("k", [⟨"F1", 0⟩, ⟨"F2", 3⟩])], [("p", [⟨"F1", 0⟩])], [], 0⟩

/-- C7: `search_folders_by_key` returns a copy of the bucket stored under
the normalized query for the three recognized kinds, and an empty list —
never an error — when the key is absent or the kind is unrecognized. -/
theorem search_by_key_spec (norm : String → String) (fm : FMState)
    (q st : String) :
    (∀ b, st = "by_contract" → dictFind? fm.folders_by_order (norm q) = some b →
      search_folders_by_key norm fm q st = b) ∧
    (∀ b, st = "by_phone" → dictFind? fm.folders_by_phone (norm q) = some b →
      search_folders_by_key norm fm q st = b) ∧
    (∀ b, st = "by_address" → dictFind? fm.folders_by_address (norm q) = some b →
      search_folders_by_key norm fm q st = b) ∧
    (st = "by_contract" → dictFind? fm.folders_by_order (norm q) = none →
      search_folders_by_key norm fm q st = []) ∧
    (st = "by_phone" → dictFind? fm.folders_by_phone (norm q) = none →
      search_folders_by_key norm fm q st = []) ∧
    (st = "by_address" → dictFind? fm.folders_by_address (norm q) = none →
      search_folders_by_key norm fm q st = []) ∧
    (st ≠ "by_contract" → st ≠ "by_phone" → st ≠ "by_address" →
      search_folders_by_key norm fm q st = []) := by
  have hcopy : ∀ (d : SecIndex) (b : List SecEntry),
      dictFind? d (norm q) = some b →
      (match dictFind? d (norm q) with
       | none => ([] : List SecEntry)
       | some bucket =>
         if bucket = [] then []
         else bucket.foldl (fun result_array item => result_array ++ [item]) []) = b := by
    intro d b hb
    rw [hb]
    dsimp only
    by_cases hbe : b = []
    · rw [if_pos hbe, hbe]
    · rw [if_neg hbe, foldl_append_copy]
      simp
  have hnone : ∀ d : SecIndex, dictFind? d (norm q) = none →
      (match dictFind? d (norm q) with
       | none => ([] : List SecEntry)
       | some bucket =>
         if bucket = [] then []
         else bucket.foldl (fun result_array item => result_array ++ [item]) []) = [] := by
    intro d hd
    rw [hd]
  refine ⟨?_, ?_, ?_, ?_, ?_, ?_, ?_⟩
  · intro b hst hb
    subst hst
    simp only [search_folders_by_key, if_pos rfl]
    exact hcopy _ b hb
  · intro b hst hb
    subst hst
    simp only [search_folders_by_key]
    rw [if_neg (by decide), if_pos trivial]
    exact hcopy _ b hb
  · intro b hst hb
    subst hst
    simp only [search_folders_by_key]
    rw [if_neg (by decide), if_neg (by decide), if_pos trivial]
    exact hcopy _ b hb
  · intro hst hd
    subst hst
    simp only [search_folders_by_key, if_pos rfl]
    exact hnone _ hd
  · intro hst hd
    subst hst
    simp only [search_folders_by_key]
    rw [if_neg (by decide), if_pos trivial]
    exact hnone _ hd
  · intro hst hd
    subst hst
    simp only [search_folders_by_key]
    rw [if_neg (by decide), if_neg (by decide), if_pos trivial]
    exact hnone _ hd
  · intro h1 h2 h3
    simp only [search_folders_by_key]
    rw [if_neg h1, if_neg h2, if_neg h3]
    rfl

/-- Witness for `search_by_key_spec`: a populated contract bucket, an
unknown key and an unknown kind. -/
theorem search_by_key_spec_witness :
    search_folders_by_key normId fmKey "k" "by_contract" = [⟨"F1", 0⟩, ⟨"F2", 3⟩] ∧
    search_folders_by_key normId fmKey "zzz" "by_contract" = [] ∧
    search_folders_by_key normId fmKey "k" "by_size" = [] :=
  ⟨(search_by_key_spec normId fmKey "k" "by_contract").1 [⟨"F1", 0⟩, ⟨"F2", 3⟩] rfl rfl,
   (search_by_key_spec normId fmKey "zzz" "by_contract").2.2.2.1 rfl rfl,
   (search_by_key_spec normId fmKey "k" "by_size").2.2.2.2.2.2
     (by decide) (by decide) (by decide)⟩

/-- A filesystem where no storage child folder exists on disk and the
process working directory is non-empty. -/
def fsMiss : FS :=
  { cwd := ["x"]
    dirs := []
    storage := []
    hasInfoCsv := fun _ => false
    csvRead := fun _ => .error () }

/-- C3 counterexample: with folder `"A"` indexed but gone from disk,
`get_files_from_folder` raises `FileNotFoundError` instead of returning
`None`. -/
theorem get_files_missing_folder_raises_cex :
    get_files_from_folder fsMiss s0W 0 = .error .fileNotFound := rfl

/-- C3 amended: `get_files_from_folder` returns `None` for an unknown id or
a folder with zero files, and returns the joined file paths otherwise; but
when the id is known and the folder is missing on disk it raises
`FileNotFoundError`. -/
theorem get_files_result_spec (fs : FS) (fm : FMState) (fid : Nat) :
    (dictFind? fm.folders_by_id fid = none →
      get_files_from_folder fs fm fid = .ok none) ∧
    (∀ p, get_full_path_folder_by_id fm fid = some p → dictFind? fs.dirs p = none →
      get_files_from_folder fs fm fid = .error .fileNotFound) ∧
    (∀ p, get_full_path_folder_by_id fm fid = some p → dictFind? fs.dirs p = some [] →
      get_files_from_folder fs fm fid = .ok none) ∧
    (∀ p files, get_full_path_folder_by_id fm fid = some p →
      dictFind? fs.dirs p = some files → files ≠ [] →
      get_files_from_folder fs fm fid =
        .ok (some (files.map (fun file_name => p ++ "/" ++ file_name)))) := by
  refine ⟨?_, ?_, ?_, ?_⟩
  · intro h
    have hp : get_full_path_folder_by_id fm fid = none := by
      unfold get_full_path_folder_by_id
      rw [h]
    simp only [get_files_from_folder, hp, os_listdir]
    split <;> rfl
  · intro p hp hd
    simp only [get_files_from_folder, hp, os_listdir, hd]
  · intro p hp hd
    simp only [get_files_from_folder, hp, os_listdir, hd]
    rfl
  · intro p files hp hd hne
    simp only [get_files_from_folder, hp, os_listdir, hd]
    rw [if_neg hne]

/-- Witness for `get_files_result_spec`: unknown id, missing folder, and an
existing folder with zero files. -/
theorem get_files_result_spec_witness :
    get_files_from_folder fsMiss s0W 7 = .ok none ∧
    get_files_from_folder fsMiss s0W 0 = .error PyErr.fileNotFound ∧
    get_files_from_folder fsW s0W 0 = .ok none :=
  ⟨(get_files_result_spec fsMiss s0W 7).1 rfl,
   (get_files_result_spec fsMiss s0W 0).2.1 "A" rfl rfl,
   (get_files_result_spec fsW s0W 0).2.2.1 "A" rfl rfl⟩

/-- C4 counterexample: an unknown id with a non-empty working directory
raises `TypeError`, and a known id whose folder is gone raises
`FileNotFoundError` — neither is folded into `None`. -/
theorem get_info_unknown_id_raises_cex :
    get_data_from_info_file fsMiss fm0W 0 = .error .typeError ∧
    get_data_from_info_file fsMiss s0W 0 = .error .fileNotFound :=
  ⟨rfl, rfl⟩

/-- C4 amended: `get_data_from_info_file` returns `None` when the folder is
empty, has no `info.csv`, or the descriptor fails to parse; but it raises
`TypeError` for an unknown id when the process working directory is
non-empty, and `FileNotFoundError` when the folder is missing on disk. -/
theorem get_info_result_spec (fs : FS) (fm : FMState) (fid : Nat) :
    (dictFind? fm.folders_by_id fid = none → fs.cwd = [] →
      get_data_from_info_file fs fm fid = .ok none) ∧
    (dictFind? fm.folders_by_id fid = none → fs.cwd ≠ [] →
      get_data_from_info_file fs fm fid = .error .typeError) ∧
    (∀ p, get_full_path_folder_by_id fm fid = some p → dictFind? fs.dirs p = none →
      get_data_from_info_file fs fm fid = .error .fileNotFound) ∧
    (∀ p, get_full_path_folder_by_id fm fid = some p → dictFind? fs.dirs p = some [] →
      get_data_from_info_file fs fm fid = .ok none) ∧
    (∀ p files, get_full_path_folder_by_id fm fid = some p →
      dictFind? fs.dirs p = some files → files ≠ [] → fs.hasInfoCsv p = false →
      get_data_from_info_file fs fm fid = .ok none) ∧
    (∀ p files, get_full_path_folder_by_id fm fid = some p →
      dictFind? fs.dirs p = some files → files ≠ [] → fs.hasInfoCsv p = true →
      get_data_from_info_file fs fm fid = .ok (read_csv (fs.csvRead p))) ∧
    (∀ p files, get_full_path_folder_by_id fm fid = some p →
      dictFind? fs.dirs p = some files → files ≠ [] → fs.hasInfoCsv p = true →
      fs.csvRead p = .error () →
      get_data_from_info_file fs fm fid = .ok none) := by
  refine ⟨?_, ?_, ?_, ?_, ?_, ?_, ?_⟩
  · intro h hcwd
    have hp : get_full_path_folder_by_id fm fid = none := by
      unfold get_full_path_folder_by_id
      rw [h]
    simp only [get_data_from_info_file, hp, os_listdir]
    rw [if_pos hcwd]
  · intro h hcwd
    have hp : get_full_path_folder_by_id fm fid = none := by
      unfold get_full_path_folder_by_id
      rw [h]
    simp only [get_data_from_info_file, hp, os_listdir]
    rw [if_neg hcwd]
  · intro p hp hd
    simp only [get_data_from_info_file, hp, os_listdir, hd]
  · intro p hp hd
    simp only [get_data_from_info_file, hp, os_listdir, hd]
    rfl
  · intro p files hp hd hne hcsv
    simp only [get_data_from_info_file, hp, os_listdir, hd]
    rw [if_neg hne, if_neg (by simp [hcsv])]
  · intro p files hp hd hne hcsv
    simp only [get_data_from_info_file, hp, os_listdir, hd]
    rw [if_neg hne, if_pos (by simp [hcsv])]
  · intro p files hp hd hne hcsv hread
    simp only [get_data_from_info_file, hp, os_listdir, hd]
    rw [if_neg hne, if_pos (by simp [hcsv]), hread]
    rfl

/-- Witness for `get_info_result_spec`: all the distinguishable outcomes at
concrete inputs. -/
theorem get_info_result_spec_witness :
    get_data_from_info_file fsW fm0W 0 = .ok none ∧
    get_data_from_info_file fsMiss fm0W 0 = .error PyErr.typeError ∧
    get_data_from_info_file fsMiss s0W 0 = .error PyErr.fileNotFound ∧
    get_data_from_info_file fsW s0W 0 = .ok none :=
  ⟨(get_info_result_spec fsW fm0W 0).1 rfl rfl,
   (get_info_result_spec fsMiss fm0W 0).2.1 rfl (by decide),
   (get_info_result_spec fsMiss s0W 0).2.2.1 "A" rfl rfl,
   (get_info_result_spec fsW s0W 0).2.2.2.1 "A" rfl rfl⟩

/-- The accumulator form of the scan loop in the fuzzy search. -/
theorem fuzzy_foldl_eq (p : Nat × FolderData → Bool) :
    ∀ (l : PrimaryIndex) (acc : List SecEntry),
    l.foldl (fun r kv =>
        if p kv then r ++ [⟨kv.2.folder_name, kv.2.folder_id⟩] else r) acc =
      acc ++ (l.filter p).map
        (fun kv => (⟨kv.2.folder_name, kv.2.folder_id⟩ : SecEntry)) := by
  intro l
  induction l with
  | nil => intro acc; simp
  | cons a l ih =>
    intro acc
    rw [List.foldl_cons]
    cases hpa : p a with
    | true =>
      rw [if_pos rfl, ih, List.filter_cons_of_pos hpa, List.map_cons]
      simp
    | false =>
      rw [if_neg (by simp), ih, List.filter_cons_of_neg (by simp [hpa])]

/-- Every record stores its own id and the slug of its own name — true of
every state the program ever builds, since both the startup scan and
`add_folder` store `⟨name, norm name, id⟩` under key `id`. -/
def FieldInv (norm : String → String) (fm : FMState) : Prop :=
  ∀ kv ∈ fm.folders_by_id, kv.2.folder_id = kv.1 ∧ kv.2.slug = norm kv.2.folder_name

/-- C5: the fuzzy search normalizes the query with the same `norm` used at
indexing time and returns exactly the records whose slug contains it, in
stored order — increasing id order under the reachable-state invariants —
and returns `[]` (never an error) when nothing matches. -/
theorem search_fuzzy_spec (norm : String → String) (fm : FMState) (query : String)
    (hkeys : List.Pairwise (· < ·) (keysOf fm))
    (hfield : FieldInv norm fm) :
    search_folders_fuzzy norm fm query =
      (fm.folders_by_id.filter (fun kv => pyIn (norm query) kv.2.slug)).map
        (fun kv => (⟨kv.2.folder_name, kv.2.folder_id⟩ : SecEntry)) ∧
    search_folders_fuzzy norm fm query =
      (fm.folders_by_id.filter
        (fun kv => pyIn (norm query) (norm kv.2.folder_name))).map
        (fun kv => (⟨kv.2.folder_name, kv.2.folder_id⟩ : SecEntry)) ∧
    List.Pairwise (· < ·)
      ((search_folders_fuzzy norm fm query).map SecEntry.folder_id) ∧
    ((∀ kv ∈ fm.folders_by_id, pyIn (norm query) kv.2.slug = false) →
      search_folders_fuzzy norm fm query = []) := by
  have h1 : search_folders_fuzzy norm fm query =
      (fm.folders_by_id.filter (fun kv => pyIn (norm query) kv.2.slug)).map
        (fun kv => (⟨kv.2.folder_name, kv.2.folder_id⟩ : SecEntry)) := by
    simp only [search_folders_fuzzy]
    rw [fuzzy_foldl_eq]
    simp
  refine ⟨h1, ?_, ?_, ?_⟩
  · rw [h1]
    congr 1
    apply List.filter_congr
    intro kv hkv
    rw [(hfield kv hkv).2]
  · rw [h1, List.map_map]
    have h2 : ((fm.folders_by_id.filter
        (fun kv => pyIn (norm query) kv.2.slug)).map
          (SecEntry.folder_id ∘ fun kv => (⟨kv.2.folder_name, kv.2.folder_id⟩ : SecEntry))) =
        ((fm.folders_by_id.filter (fun kv => pyIn (norm query) kv.2.slug)).map Prod.fst) := by
      apply List.map_congr_left
      intro kv hkv
      exact (hfield kv (List.mem_of_mem_filter hkv)).1
    rw [h2]
    exact List.Pairwise.sublist (List.Sublist.map Prod.fst (List.filter_sublist _)) hkeys
  · intro hall
    rw [h1, List.filter_eq_nil_iff.mpr]
    · rfl
    · intro kv hkv
      simp [hall kv hkv]

/-- Witness for `search_fuzzy_spec` on the concrete two-entry index. -/
theorem search_fuzzy_spec_witness :
    search_folders_fuzzy normId s1W "D" =
      (s1W.folders_by_id.filter (fun kv => pyIn (normId "D") kv.2.slug)).map
        (fun kv => (⟨kv.2.folder_name, kv.2.folder_id⟩ : SecEntry)) ∧
    search_folders_fuzzy normId s1W "D" =
      (s1W.folders_by_id.filter
        (fun kv => pyIn (normId "D") (normId kv.2.folder_name))).map
        (fun kv => (⟨kv.2.folder_name, kv.2.folder_id⟩ : SecEntry)) ∧
    List.Pairwise (· < ·)
      ((search_folders_fuzzy normId s1W "D").map SecEntry.folder_id) ∧
    ((∀ kv ∈ s1W.folders_by_id, pyIn (normId "D") kv.2.slug = false) →
      search_folders_fuzzy normId s1W "D" = []) :=
  search_fuzzy_spec normId s1W "D" (by decide) (by unfold FieldInv; decide)

/-- C2: each poll tick emits exactly one `"new"` event per name in
`current − previous` and one `"del"` event per name in
`previous − current`, each group sorted lexicographically, then carries
`current` forward as the next `previous`; the very first scan emits
nothing. -/
theorem watcher_tick_events_spec (P C : Finset String) :
    (watcher_tick P C).2 = C ∧
    ((watcher_tick P C).1.filter (fun e => decide (e.event = "new"))).map
        WEvent.folder_name = (C \ P).sort (· ≤ ·) ∧
    ((watcher_tick P C).1.filter (fun e => decide (e.event = "del"))).map
        WEvent.folder_name = (P \ C).sort (· ≤ ·) ∧
    (∀ n : String,
      (watcher_tick P C).1.count ⟨"new", n⟩ = if n ∈ C \ P then 1 else 0) ∧
    (∀ n : String,
      (watcher_tick P C).1.count ⟨"del", n⟩ = if n ∈ P \ C then 1 else 0) ∧
    run_watcher [P] = [] ∧
    (∀ rest : List (Finset String),
      run_watcher (P :: C :: rest) =
        (watcher_tick P C).1 ++ run_watcher (C :: rest)) := by
  have hinjn : Function.Injective (fun n => (⟨"new", n⟩ : WEvent)) := by
    intro a b h
    simpa using h
  have hinjd : Function.Injective (fun n => (⟨"del", n⟩ : WEvent)) := by
    intro a b h
    simpa using h
  have hevs : (watcher_tick P C).1 =
      ((C \ P).sort (· ≤ ·)).map (fun n => (⟨"new", n⟩ : WEvent)) ++
      ((P \ C).sort (· ≤ ·)).map (fun n => (⟨"del", n⟩ : WEvent)) := rfl
  refine ⟨rfl, ?_, ?_, ?_, ?_, rfl, fun rest => rfl⟩
  · rw [hevs, List.filter_append]
    rw [List.filter_eq_self.mpr (by
      intro e he
      obtain ⟨n, hn, rfl⟩ := List.mem_map.mp he
      simp)]
    rw [List.filter_eq_nil_iff.mpr (by
      intro e he
      obtain ⟨n, hn, rfl⟩ := List.mem_map.mp he
      simp)]
    rw [List.append_nil, List.map_map]
    have hc : (WEvent.folder_name ∘ fun n => (⟨"new", n⟩ : WEvent)) = fun n => n := rfl
    rw [hc]
    simp
  · rw [hevs, List.filter_append]
    rw [List.filter_eq_nil_iff.mpr (by
      intro e he
      obtain ⟨n, hn, rfl⟩ := List.mem_map.mp he
      simp)]
    rw [List.filter_eq_self.mpr (by
      intro e he
      obtain ⟨n, hn, rfl⟩ := List.mem_map.mp he
      simp)]
    rw [List.nil_append, List.map_map]
    have hc : (WEvent.folder_name ∘ fun n => (⟨"del", n⟩ : WEvent)) = fun n => n := rfl
    rw [hc]
    simp
  · intro n
    rw [hevs, List.count_append]
    have hd0 : (((P \ C).sort (· ≤ ·)).map
        (fun n => (⟨"del", n⟩ : WEvent))).count ⟨"new", n⟩ = 0 := by
      apply List.count_eq_zero_of_not_mem
      intro hmem
      obtain ⟨m, hm, he⟩ := List.mem_map.mp hmem
      exact absurd (congrArg WEvent.event he) (by simp)
    rw [hd0, Nat.add_zero]
    rw [show (⟨"new", n⟩ : WEvent) = (fun n => (⟨"new", n⟩ : WEvent)) n from rfl,
      List.count_map_of_injective _ _ hinjn]
    by_cases hn : n ∈ C \ P
    · rw [if_pos hn]
      exact List.count_eq_one_of_mem ((C \ P).sort_nodup (· ≤ ·))
        ((Finset.mem_sort (· ≤ ·)).mpr hn)
    · rw [if_neg hn]
      exact List.count_eq_zero_of_not_mem (fun hmem =>
        hn ((Finset.mem_sort (· ≤ ·)).mp hmem))
  · intro n
    rw [hevs, List.count_append]
    have hn0 : (((C \ P).sort (· ≤ ·)).map
        (fun n => (⟨"new", n⟩ : WEvent))).count ⟨"del", n⟩ = 0 := by
      apply List.count_eq_zero_of_not_mem
      intro hmem
      obtain ⟨m, hm, he⟩ := List.mem_map.mp hmem
      exact absurd (congrArg WEvent.event he) (by simp)
    rw [hn0, Nat.zero_add]
    rw [show (⟨"del", n⟩ : WEvent) = (fun n => (⟨"del", n⟩ : WEvent)) n from rfl,
      List.count_map_of_injective _ _ hinjd]
    by_cases hn : n ∈ P \ C
    · rw [if_pos hn]
      exact List.count_eq_one_of_mem ((P \ C).sort_nodup (· ≤ ·))
        ((Finset.mem_sort (· ≤ ·)).mpr hn)
    · rw [if_neg hn]
      exact List.count_eq_zero_of_not_mem (fun hmem =>
        hn ((Finset.mem_sort (· ≤ ·)).mp hmem))

/-- C9: a `PermissionError` or `FileNotFoundError` scan degrades that tick
to "no visible children" without aborting the run (the whole run equals the
run with an explicit empty listing at that tick), and a failed queue put is
swallowed: the queue is left exactly as it was, with no retry. -/
theorem watcher_error_degradation_spec (include_hidden : Bool)
    (pre post : List ScanResult) (q : MPQueue) (payload : WEvent) (e : SendErr)
    (hput : queue_put q payload = .error e) :
    list_child_folders ScanResult.permissionError include_hidden = ∅ ∧
    list_child_folders ScanResult.fileNotFoundError include_hidden = ∅ ∧
    run_watcher_scans include_hidden (pre ++ ScanResult.permissionError :: post) =
      run_watcher_scans include_hidden (pre ++ ScanResult.ok [] :: post) ∧
    run_watcher_scans include_hidden (pre ++ ScanResult.fileNotFoundError :: post) =
      run_watcher_scans include_hidden (pre ++ ScanResult.ok [] :: post) ∧
    safe_put q payload = q := by
  refine ⟨rfl, rfl, ?_, ?_, ?_⟩
  · unfold run_watcher_scans
    rw [List.map_append, List.map_append, List.map_cons, List.map_cons]
    rfl
  · unfold run_watcher_scans
    rw [List.map_append, List.map_append, List.map_cons, List.map_cons]
    rfl
  · unfold safe_put
    rw [hput]

/-- Witness for `watcher_error_degradation_spec`: a full queue (capacity 0)
rejects the put and `safe_put` leaves it unchanged. -/
theorem watcher_error_degradation_spec_witness :
    list_child_folders ScanResult.permissionError false = ∅ ∧
    list_child_folders ScanResult.fileNotFoundError false = ∅ ∧
    run_watcher_scans false
        ([ScanResult.ok [⟨"X", true, true⟩]] ++ ScanResult.permissionError :: [])
      = run_watcher_scans false
          ([ScanResult.ok [⟨"X", true, true⟩]] ++ ScanResult.ok [] :: []) ∧
    run_watcher_scans false
        ([ScanResult.ok [⟨"X", true, true⟩]] ++ ScanResult.fileNotFoundError :: [])
      = run_watcher_scans false
          ([ScanResult.ok [⟨"X", true, true⟩]] ++ ScanResult.ok [] :: []) ∧
    safe_put ⟨[], 0, false⟩ ⟨"new", "Y"⟩ = ⟨[], 0, false⟩ :=
  watcher_error_degradation_spec false [ScanResult.ok [⟨"X", true, true⟩]] []
    ⟨[], 0, false⟩ ⟨"new", "Y"⟩ SendErr.queueFull rfl

/-- Every entry of `dictSet m k v` is an old entry or the new pair. -/
theorem mem_dictSet {α β : Type} [DecidableEq α] (m : List (α × β)) (k : α) (v : β) :
    ∀ kv ∈ dictSet m k v, kv ∈ m ∨ kv = (k, v) := by
  intro kv hkv
  unfold dictSet at hkv
  split at hkv
  · obtain ⟨kv0, hkv0, heq⟩ := List.mem_map.mp hkv
    by_cases h : kv0.1 = k
    · right
      rw [if_pos h] at heq
      exact heq.symm
    · left
      rw [if_neg h] at heq
      exact heq ▸ hkv0
  · rcases List.mem_append.mp hkv with h | h
    · left
      exact h
    · right
      simpa using h

/-- `add_folder` preserves the stored-field invariant: the new record is
`⟨name, norm name, id⟩` under key `id`. -/
theorem field_inv_add (norm : String → String) (fs : FS) (fm fm' : FMState)
    (name : String) (h : add_folder norm fs fm name = .ok fm')
    (hf : FieldInv norm fm) : FieldInv norm fm' := by
  simp only [add_folder] at h
  split at h
  · exact absurd h (by simp)
  · rename_i fm2 hmeta
    simp only [Except.ok.injEq] at h
    subst h
    intro kv hkv
    have hmem : kv ∈ fm2.folders_by_id := hkv
    rw [(index_folder_metadata_frame _ _ _ _ _ _ hmeta).1] at hmem
    rcases mem_dictSet _ _ _ kv hmem with hold | hnew
    · exact hf kv hold
    · subst hnew
      exact ⟨rfl, rfl⟩

/-- `remove_folder` preserves the stored-field invariant. -/
theorem field_inv_remove (norm : String → String) (fm : FMState) (name : String)
    (hf : FieldInv norm fm) : FieldInv norm (remove_folder fm name) :=
  fun kv hkv => hf kv ((remove_folder_prim fm name).1.mem hkv)

/-- The startup scan loop preserves the stored-field invariant. -/
theorem build_go_field (norm : String → String) (fs : FS) :
    ∀ (pairs : List (Nat × String)) (fm fm' : FMState),
    FieldInv norm fm →
    build_go norm fs fm pairs = .ok fm' → FieldInv norm fm' := by
  intro pairs
  induction pairs with
  | nil =>
    intro fm fm' hf h
    simp only [build_go, Except.ok.injEq] at h
    subst h
    exact hf
  | cons p rest ih =>
    intro fm fm' hf h
    obtain ⟨num, name⟩ := p
    simp only [build_go] at h
    split at h
    · exact absurd h (by simp)
    · rename_i fm2 hmeta
      refine ih fm2 fm' ?_ h
      intro kv hkv
      have hmem : kv ∈ fm2.folders_by_id := hkv
      rw [(index_folder_metadata_frame _ _ _ _ _ _ hmeta).1] at hmem
      rcases mem_dictSet _ _ _ kv hmem with hold | hnew
      · exact hf kv hold
      · subst hnew
        exact ⟨rfl, rfl⟩

/-- The consumer trace preserves the stored-field invariant. -/
theorem field_inv_run (norm : String → String) (fs : FS) :
    ∀ (ops : List FMOp) (fm s : FMState) (ids : List Nat),
    FieldInv norm fm →
    run_queue_ops norm fs fm ops = .ok (s, ids) → FieldInv norm s := by
  intro ops
  induction ops with
  | nil =>
    intro fm s ids hf h
    simp only [run_queue_ops, Except.ok.injEq, Prod.mk.injEq] at h
    obtain ⟨rfl, rfl⟩ := h
    exact hf
  | cons op rest ih =>
    intro fm s ids hf h
    cases op with
    | add name =>
      simp only [run_queue_ops] at h
      cases hadd : add_folder norm fs fm name with
      | error e =>
        rw [hadd] at h
        simp at h
      | ok fm1 =>
        rw [hadd] at h
        dsimp only at h
        cases hrec : run_queue_ops norm fs fm1 rest with
        | error e =>
          rw [hrec] at h
          simp at h
        | ok pr =>
          obtain ⟨fm2, ids'⟩ := pr
          rw [hrec] at h
          dsimp only at h
          simp only [Except.ok.injEq, Prod.mk.injEq] at h
          obtain ⟨rfl, rfl⟩ := h
          exact ih fm1 fm2 ids' (field_inv_add norm fs fm fm1 name hadd hf) hrec
    | remove name =>
      simp only [run_queue_ops] at h
      exact ih _ s ids (field_inv_remove norm fm name hf) h

/-- Every state reachable from a startup scan through a consumer trace has
strictly increasing primary keys and correctly stored id/slug fields — the
two invariants assumed by the fuzzy-search characterization. -/
theorem reachable_state_inv (norm : String → String) (fs : FS)
    (ops : List FMOp) (s0 s : FMState) (ids : List Nat)
    (hb : file_manager_init norm fs = .ok s0)
    (hr : run_queue_ops norm fs s0 ops = .ok (s, ids)) :
    List.Pairwise (· < ·) (keysOf s) ∧ FieldInv norm s := by
  obtain ⟨b1, b2, b3⟩ := file_manager_init_inv norm fs s0 hb
  have hf0 : FieldInv norm s0 := by
    unfold file_manager_init at hb
    split at hb
    · simp only [Except.ok.injEq] at hb
      subst hb
      intro kv hkv
      simp at hkv
    · exact build_go_field norm fs _ _ s0 (fun kv hkv => by simp at hkv) hb
  obtain ⟨r1, r2, _⟩ := run_queue_ops_spec norm fs ops s0 s ids b1 b2 hr
  exact ⟨r2, field_inv_run norm fs ops s0 s ids hf0 hr⟩

end FilesStorage
